import Mathlib

/-!
Verification of the Cedrus video-engine driver against its natural-language
specification.  The definitions below are shallow embeddings of the C
functions of the driver (drivers/staging/media/sunxi/cedrus); each
definition's doc comment names the C function it embeds.
-/

set_option maxHeartbeats 1000000

namespace Cedrus

/-! ## Bitstream emitter (cedrus_enc_h264.c)

The hardware bit-serializer is driven through
`cedrus_enc_h264_coded_append(dev, value, count)`, which appends the low
`count` bits of `value` to the coded stream.  We model one append as a
`CodedAppend` record and the emitted bit string as the `count` low bits of
`value`, most significant first. -/

/-- One invocation of `cedrus_enc_h264_coded_append`: the low `count` bits
of `value` are appended to the coded stream. -/
structure CodedAppend where
  value : Nat
  count : Nat
  deriving DecidableEq

/-- The bit string (most significant first) emitted by one append. -/
def appendBits (a : CodedAppend) : List Bool :=
  (List.range a.count).reverse.map (fun i => a.value.testBit i)

/-- Interpret a bit string (most significant first) as a natural number. -/
def bitsToNat (bits : List Bool) : Nat :=
  bits.foldl (fun acc b => 2 * acc + (if b then 1 else 0)) 0

/-- C unsigned-int truncation. -/
def u32 (n : Nat) : Nat := n % 2 ^ 32

/-- Embeds `cedrus_enc_h264_coded_ue`: unsigned Exp-Golomb emission of
`value` appends `value + 1` (as a 32-bit unsigned value) in
`2 * __fls(value + 1) + 1` bits, where `__fls` is the floor of the base-2
logarithm. -/
def cedrus_enc_h264_coded_ue (value : Nat) : CodedAppend :=
  let bits_count := 2 * Nat.log2 (u32 (value + 1)) + 1
  ⟨u32 (value + 1), bits_count⟩

/-- Embeds the `value_ue` computation of `cedrus_enc_h264_coded_se`:
positive values select `2 * value - 1`, non-positive values `-2 * value`;
`value_ue` is an `unsigned int`, so the selected value is reduced modulo
`2 ^ 32`. -/
def cedrus_enc_h264_coded_se_arg (value : Int) : Nat :=
  u32 (if value > 0 then 2 * value - 1 else (-2) * value).toNat

/-- Embeds `cedrus_enc_h264_coded_se`: signed Exp-Golomb emission maps the
signed value through `cedrus_enc_h264_coded_se_arg` and emits it with the
unsigned emitter. -/
def cedrus_enc_h264_coded_se (value : Int) : CodedAppend :=
  cedrus_enc_h264_coded_ue (cedrus_enc_h264_coded_se_arg value)

/-- The standard inverse signed Exp-Golomb mapping (H.264 9.1.1): code
word `k` decodes to `(-1)^(k+1) * ceil(k / 2)`. -/
def seInverse (k : Nat) : Int :=
  if k % 2 = 1 then ((k : Int) + 1) / 2 else -((k : Int) / 2)

/-- Embeds `cedrus_enc_h264_coded_align`: with `bit_len` bits already
written (read back from `VE_ENC_AVC_STM_BIT_LEN_REG`), the alignment pads
with zero bits; this is the list of appends it performs. -/
def cedrus_enc_h264_coded_align (bit_len : Nat) : List CodedAppend :=
  let bits_count := bit_len % 8
  if bits_count = 0 then [] else [⟨0, 8 - bits_count⟩]

/-- The number of padding bits appended by `cedrus_enc_h264_coded_align`. -/
def alignPadCount (bit_len : Nat) : Nat :=
  ((cedrus_enc_h264_coded_align bit_len).map CodedAppend.count).sum

/-! ### Supporting lemmas for the bit-serializer -/

theorem bitsToNat_cons (b : Bool) (t : List Bool) (acc : Nat) :
    (b :: t).foldl (fun a c => 2 * a + (if c then 1 else 0)) acc
      = t.foldl (fun a c => 2 * a + (if c then 1 else 0))
          (2 * acc + (if b then 1 else 0)) := rfl

theorem bitsToNat_foldl (l : List Bool) (acc : Nat) :
    l.foldl (fun a c => 2 * a + (if c then 1 else 0)) acc
      = acc * 2 ^ l.length + bitsToNat l := by
  induction l generalizing acc with
  | nil => simp [bitsToNat]
  | cons b t ih =>
      unfold bitsToNat
      rw [bitsToNat_cons, ih, bitsToNat_cons, ih]
      simp only [List.length_cons, pow_succ]
      ring

theorem bitsToNat_cons_eq (b : Bool) (t : List Bool) :
    bitsToNat (b :: t) = (if b then 1 else 0) * 2 ^ t.length + bitsToNat t := by
  unfold bitsToNat
  rw [bitsToNat_cons, bitsToNat_foldl]
  simp only [bitsToNat]
  ring

/-- The low `n` bits of `v`, emitted most significant first, decode to
`v % 2 ^ n`. -/
theorem bitsToNat_testBits (v : Nat) : ∀ n : Nat,
    bitsToNat ((List.range n).reverse.map (fun i => v.testBit i)) = v % 2 ^ n := by
  intro n
  induction n with
  | zero => simp [bitsToNat, Nat.mod_one]
  | succ n ih =>
      rw [List.range_succ, List.reverse_append]
      simp only [List.reverse_cons, List.reverse_nil, List.nil_append,
        List.singleton_append, List.map_cons]
      have hlen : ((List.range n).reverse.map (fun i => v.testBit i)).length = n := by
        simp
      rw [bitsToNat_cons_eq, hlen, ih]
      have hmod : v % (2 ^ n * 2) = v % 2 ^ n + 2 ^ n * (v / 2 ^ n % 2) :=
        Nat.mod_mul
      have htb : v.testBit n = decide (v / 2 ^ n % 2 = 1) := by
        rw [Nat.testBit_to_div_mod]
      have h2 : v / 2 ^ n % 2 = 0 ∨ v / 2 ^ n % 2 = 1 := Nat.mod_two_eq_zero_or_one _
      rw [pow_succ, hmod, htb]
      rcases h2 with h2 | h2 <;> rw [h2] <;> simp <;> omega

theorem lt_two_pow_log2_succ (n : Nat) : n < 2 ^ (Nat.log2 n + 1) := by
  rw [Nat.log2_eq_log_two]
  exact Nat.lt_pow_succ_log_self (by norm_num) n

/-! ## Claim theorems: Exp-Golomb and alignment -/

/-- Claim C6: for every value `v` (with `v + 1` representable as a 32-bit
unsigned integer since the C emitter computes `value + 1` in `unsigned
int`), `cedrus_enc_h264_coded_ue v` appends exactly the bit pattern
`v + 1` using exactly `2 * floor(log2 (v + 1)) + 1` bits: the emitted bit
string has that length and decodes back to `v + 1`.  In particular `ue 0`
emits 1 bit and `ue 1`, `ue 2` each emit 3 bits. -/
theorem coded_ue_bits_spec (v : Nat) (h : v + 1 < 2 ^ 32) :
    (cedrus_enc_h264_coded_ue v).value = v + 1 ∧
    (cedrus_enc_h264_coded_ue v).count = 2 * Nat.log2 (v + 1) + 1 ∧
    (appendBits (cedrus_enc_h264_coded_ue v)).length
      = 2 * Nat.log2 (v + 1) + 1 ∧
    bitsToNat (appendBits (cedrus_enc_h264_coded_ue v)) = v + 1 ∧
    (cedrus_enc_h264_coded_ue 0).count = 1 ∧
    (cedrus_enc_h264_coded_ue 1).count = 3 ∧
    (cedrus_enc_h264_coded_ue 2).count = 3 := by
  have hu : u32 (v + 1) = v + 1 := Nat.mod_eq_of_lt h
  have hval : (cedrus_enc_h264_coded_ue v).value = v + 1 := by
    simp [cedrus_enc_h264_coded_ue, hu]
  have hcount : (cedrus_enc_h264_coded_ue v).count = 2 * Nat.log2 (v + 1) + 1 := by
    simp [cedrus_enc_h264_coded_ue, hu]
  refine ⟨hval, hcount, ?_, ?_,
    by simp [cedrus_enc_h264_coded_ue, u32, Nat.log2],
    by simp [cedrus_enc_h264_coded_ue, u32, Nat.log2],
    by simp [cedrus_enc_h264_coded_ue, u32, Nat.log2]⟩
  · simp [appendBits, hcount]
  · have hdecode := bitsToNat_testBits (cedrus_enc_h264_coded_ue v).value
      (cedrus_enc_h264_coded_ue v).count
    have hfit : v + 1 < 2 ^ (2 * Nat.log2 (v + 1) + 1) := by
      have h1 : v + 1 < 2 ^ (Nat.log2 (v + 1) + 1) :=
        lt_two_pow_log2_succ (v + 1)
      have h2 : (2 : Nat) ^ (Nat.log2 (v + 1) + 1) ≤ 2 ^ (2 * Nat.log2 (v + 1) + 1) :=
        Nat.pow_le_pow_right (by norm_num) (by omega)
      omega
    rw [appendBits, hdecode, hval, hcount, Nat.mod_eq_of_lt hfit]

/-- Witness for C6 at `v = 2`. -/
theorem coded_ue_bits_spec_witness :
    (2 : Nat) + 1 < 2 ^ 32 ∧
    ((cedrus_enc_h264_coded_ue 2).value = 2 + 1 ∧
     (cedrus_enc_h264_coded_ue 2).count = 2 * Nat.log2 (2 + 1) + 1 ∧
     (appendBits (cedrus_enc_h264_coded_ue 2)).length
       = 2 * Nat.log2 (2 + 1) + 1 ∧
     bitsToNat (appendBits (cedrus_enc_h264_coded_ue 2)) = 2 + 1 ∧
     (cedrus_enc_h264_coded_ue 0).count = 1 ∧
     (cedrus_enc_h264_coded_ue 1).count = 3 ∧
     (cedrus_enc_h264_coded_ue 2).count = 3) :=
  ⟨by norm_num, coded_ue_bits_spec 2 (by norm_num)⟩

/-- Counterexample for C5: at `v = INT_MIN = -2^31` (a representable
input of the `int` parameter) the driver's `unsigned int` computation
wraps `-2 * v = 2^32` to the code word 0, so `se` emits the code of
`ue 0` and the standard inverse signed Exp-Golomb mapping returns 0,
not `-2^31`: the round-trip law fails as stated for this integer. -/
theorem coded_se_int_min_wraps :
    cedrus_enc_h264_coded_se_arg (-(2 ^ 31)) = 0 ∧
    seInverse (cedrus_enc_h264_coded_se_arg (-(2 ^ 31))) = 0 ∧
    seInverse (cedrus_enc_h264_coded_se_arg (-(2 ^ 31))) ≠ -(2 ^ 31) ∧
    cedrus_enc_h264_coded_se (-(2 ^ 31)) = cedrus_enc_h264_coded_ue 0 := by
  have h0 : cedrus_enc_h264_coded_se_arg (-(2 ^ 31)) = 0 := by decide
  refine ⟨h0, ?_, ?_, ?_⟩
  · rw [h0]
    decide
  · rw [h0]
    decide
  · show cedrus_enc_h264_coded_ue (cedrus_enc_h264_coded_se_arg (-(2 ^ 31)))
        = cedrus_enc_h264_coded_ue 0
    rw [h0]

/-- Claim C5 (amended): for every `int`-representable `v` other than
`INT_MIN` (where the `unsigned int` computation of `value_ue` wraps
`-2 * v` to 0, see the counterexample), the signed Exp-Golomb emitter
maps positive `v` to the unsigned code of `2 * v - 1` and non-positive
`v` to the unsigned code of `-2 * v`, and the standard inverse signed
Exp-Golomb mapping applied to the emitted code word returns `v`
(round-trip law); `se 0` emits the same code as `ue 0`. -/
theorem coded_se_spec (v : Int) (hlo : -(2 ^ 31) < v) (hhi : v < 2 ^ 31) :
    (0 < v → cedrus_enc_h264_coded_se v
      = cedrus_enc_h264_coded_ue (2 * v - 1).toNat) ∧
    (v ≤ 0 → cedrus_enc_h264_coded_se v
      = cedrus_enc_h264_coded_ue ((-2) * v).toNat) ∧
    seInverse (cedrus_enc_h264_coded_se_arg v) = v ∧
    cedrus_enc_h264_coded_se 0 = cedrus_enc_h264_coded_ue 0 := by
  have h31 : ((2 : Int) ^ 31) = 2147483648 := by norm_num
  have h32 : ((2 : Nat) ^ 32) = 4294967296 := by norm_num
  have harg : cedrus_enc_h264_coded_se_arg v
      = (if v > 0 then 2 * v - 1 else (-2) * v).toNat := by
    unfold cedrus_enc_h264_coded_se_arg u32
    apply Nat.mod_eq_of_lt
    by_cases hv : v > 0
    · rw [if_pos hv]
      omega
    · rw [if_neg hv]
      omega
  refine ⟨?_, ?_, ?_, ?_⟩
  · intro hv
    show cedrus_enc_h264_coded_ue (cedrus_enc_h264_coded_se_arg v) = _
    rw [harg, if_pos hv]
  · intro hv
    show cedrus_enc_h264_coded_ue (cedrus_enc_h264_coded_se_arg v) = _
    rw [harg, if_neg (not_lt.mpr hv)]
  · rw [harg]
    unfold seInverse
    by_cases hv : v > 0
    · rw [if_pos hv]
      have h1 : (2 * v - 1).toNat % 2 = 1 := by omega
      rw [if_pos h1]
      omega
    · rw [if_neg hv]
      have h1 : ((-2) * v).toNat % 2 = 0 := by omega
      rw [if_neg (by omega)]
      omega
  · rfl

/-- Witness for C5 at `v = -3`: the emitted code word is `6` and the
inverse mapping recovers `-3`. -/
theorem coded_se_spec_witness :
    (-(2 ^ 31) : Int) < -3 ∧ (-3 : Int) < 2 ^ 31 ∧
    ((-3 : Int) ≤ 0 ∧ cedrus_enc_h264_coded_se (-3)
      = cedrus_enc_h264_coded_ue ((-2) * (-3)).toNat) ∧
    seInverse (cedrus_enc_h264_coded_se_arg (-3)) = -3 :=
  ⟨by norm_num, by norm_num,
   ⟨by norm_num,
    (coded_se_spec (-3) (by norm_num) (by norm_num)).2.1 (by norm_num)⟩,
   (coded_se_spec (-3) (by norm_num) (by norm_num)).2.2.1⟩

/-- Claim C8: after `n` bits written, `cedrus_enc_h264_coded_align`
appends only zero-valued bits, the total bit count becomes a multiple
of 8, and the padding is the minimum possible: it lies in `[0, 8)` and no
smaller padding reaches a multiple of 8. -/
theorem coded_align_spec (n : Nat) :
    (∀ a ∈ cedrus_enc_h264_coded_align n, a.value = 0) ∧
    (n + alignPadCount n) % 8 = 0 ∧
    alignPadCount n < 8 ∧
    (∀ m, m < alignPadCount n → (n + m) % 8 ≠ 0) := by
  unfold alignPadCount cedrus_enc_h264_coded_align
  by_cases h : n % 8 = 0
  · simp [h]
  · simp only [h, if_neg, if_false]
    refine ⟨?_, ?_, ?_, ?_⟩
    · intro a ha
      simp at ha
      simp [ha]
    · simp
      omega
    · simp
      omega
    · intro m hm
      simp at hm
      omega

/-- Witness for C8 at `n = 13` bits written: 3 zero bits pad to 16. -/
theorem coded_align_spec_witness :
    (13 + alignPadCount 13) % 8 = 0 ∧ alignPadCount 13 < 8 ∧
    ¬ (13 + 1) % 8 = 0 :=
  ⟨(coded_align_spec 13).2.1, (coded_align_spec 13).2.2.1,
   (coded_align_spec 13).2.2.2 1 (by decide)⟩

/-! ## Encoder job preparation (cedrus_enc_h264_job_prepare)

The per-job frame-type / counter / QP logic of
`cedrus_enc_h264_job_prepare` is a pure function of the sampled control
values (`cedrus_enc_h264_context`), the pending force-key-frame flag and
the persistent `cedrus_enc_h264_state`.  All `unsigned int` arithmetic is
modelled on `Nat` with explicit `% 2 ^ 32` where the C code can wrap. -/

inductive FrameType
  | idr
  | i
  | p
  | b
  deriving DecidableEq

/-- `enum cedrus_enc_h264_step` values. -/
def STEP_START : Nat := 0
def STEP_SPS : Nat := 1
def STEP_PPS : Nat := 2
def STEP_SLICE : Nat := 3

/-- The control values of `struct cedrus_enc_h264_context` sampled by
`cedrus_enc_h264_job_prepare` (all set by the V4L2 controls). -/
structure EncH264Ctx where
  gop_closure : Bool
  gop_size : Nat
  gop_open_i_period : Nat
  log2_max_frame_num : Nat
  log2_max_pic_order_cnt_lsb : Nat
  qp_min : Nat
  qp_max : Nat
  qp_i : Nat
  qp_p : Nat
  prepend_sps_pps_idr : Bool
  deriving DecidableEq

/-- `struct cedrus_enc_h264_state`: the counters persisting across Jobs. -/
structure EncH264State where
  step : Nat
  gop_index : Nat
  frame_num : Nat
  pic_order_cnt_lsb : Nat
  qp_init : Nat
  deriving DecidableEq

/-- The per-job outputs of `cedrus_enc_h264_job_prepare` relevant here
(fields of `struct cedrus_enc_h264_job`). -/
structure EncH264Job where
  frame_type : FrameType
  frame_num : Nat
  pic_order_cnt_lsb : Nat
  qp : Nat
  deriving DecidableEq

/-- The per-frame-type QP selection of the `switch (job->frame_type)` in
`cedrus_enc_h264_job_prepare` (`job->qp` starts at 0 from the zeroed
job, so the unreachable B case leaves 0). -/
def qpBase (ctx : EncH264Ctx) : FrameType → Nat
  | .idr | .i => ctx.qp_i
  | .p => ctx.qp_p
  | .b => 0

/-- The QP min/max saturation of `cedrus_enc_h264_job_prepare`. -/
def clampQp (ctx : EncH264Ctx) (qp0 : Nat) : Nat :=
  if qp0 > ctx.qp_max then ctx.qp_max
  else if qp0 < ctx.qp_min then ctx.qp_min
  else qp0

/-- Embeds the GOP / identification / QP logic of
`cedrus_enc_h264_job_prepare`, in source order: frame-type decision from
the GOP index, force-key-frame override (consuming the flag), GOP index
advance (wrapped to the GOP size in closed-GOP mode), IDR counter resets,
`frame_num` / `pic_order_cnt_lsb` sampling and advance modulo
`2 ^ log2_max_*`, and per-frame-type QP selection with min/max
saturation.  Returns the job fields, the force flag after the call, and
the state after the call. -/
def cedrus_enc_h264_job_prepare (ctx : EncH264Ctx) (force_key_frame : Bool)
    (s : EncH264State) : EncH264Job × Bool × EncH264State :=
  let ft0 : FrameType :=
    if ctx.gop_closure then
      if s.gop_index = 0 then .idr else .p
    else
      if s.gop_index = 0 then .idr
      else if 0 < ctx.gop_open_i_period ∧ s.gop_index % ctx.gop_open_i_period = 0
        then .i
      else .p
  let ftForce := if force_key_frame then (FrameType.idr, false)
    else (ft0, force_key_frame)
  let ft := ftForce.1
  let gop_index := u32 (s.gop_index + 1)
  let gop_index := if ctx.gop_closure then gop_index % ctx.gop_size else gop_index
  let frame_num0 := if ft = FrameType.idr then 0 else s.frame_num
  let poc0 := if ft = FrameType.idr then 0 else s.pic_order_cnt_lsb
  let step := if ft = FrameType.idr ∧ ctx.prepend_sps_pps_idr then STEP_SPS
    else s.step
  let job_frame_num := frame_num0
  let frame_num1 := u32 (frame_num0 + 1) % 2 ^ ctx.log2_max_frame_num
  let job_poc := poc0
  let poc1 := u32 (poc0 + 2) % 2 ^ ctx.log2_max_pic_order_cnt_lsb
  let qp := clampQp ctx (qpBase ctx ft)
  let qp_init := if step < STEP_SLICE then qp else s.qp_init
  (⟨ft, job_frame_num, job_poc, qp⟩,
   ftForce.2,
   ⟨step, gop_index, frame_num1, poc1, qp_init⟩)

/-- The state set up by `cedrus_enc_h264_setup`: step `START`, all
counters zero. -/
def encInitState : EncH264State := ⟨STEP_START, 0, 0, 0, 0⟩

/-- The force flag and persistent state before Job `n`, for the request
stream `reqs` (`reqs m = true` when a force-key-frame control write
arrives between Job `m - 1` and Job `m`; the write sets the flag). -/
def encStateBefore (ctx : EncH264Ctx) (reqs : Nat → Bool) : Nat → Bool × EncH264State
  | 0 => (reqs 0, encInitState)
  | n + 1 =>
      let fs := encStateBefore ctx reqs n
      let r := cedrus_enc_h264_job_prepare ctx fs.1 fs.2
      (reqs (n + 1) || r.2.1, r.2.2)

/-- The job fields produced for Job `n`. -/
def encJob (ctx : EncH264Ctx) (reqs : Nat → Bool) (n : Nat) : EncH264Job :=
  let fs := encStateBefore ctx reqs n
  (cedrus_enc_h264_job_prepare ctx fs.1 fs.2).1

/-- The force flag left behind by a job-prepare call is always false:
the one-shot request never survives the Job that consumed it. -/
theorem prepare_consumes_force (ctx : EncH264Ctx) (f : Bool) (s : EncH264State) :
    (cedrus_enc_h264_job_prepare ctx f s).2.1 = false := by
  unfold cedrus_enc_h264_job_prepare
  cases f <;> rfl

/-- The flag seen by Job `n` is exactly the request for Job `n`. -/
theorem encFlagBefore (ctx : EncH264Ctx) (reqs : Nat → Bool) (n : Nat) :
    (encStateBefore ctx reqs n).1 = reqs n := by
  cases n with
  | zero => rfl
  | succ n =>
      show (reqs (n + 1) || _) = reqs (n + 1)
      rw [prepare_consumes_force]
      exact Bool.or_false _

/-- The GOP index is advanced identically on every path of
`cedrus_enc_h264_job_prepare` (independent of the frame type and force
flag). -/
theorem prepare_gop_index (ctx : EncH264Ctx) (f : Bool) (s : EncH264State) :
    (cedrus_enc_h264_job_prepare ctx f s).2.2.gop_index
      = if ctx.gop_closure then u32 (s.gop_index + 1) % ctx.gop_size
        else u32 (s.gop_index + 1) := rfl

/-- GOP index before Job `n`: `n` modulo the GOP size in closed-GOP mode,
`n` modulo `2 ^ 32` in open-GOP mode; independent of the force-request
stream. -/
theorem encGopIndexBefore (ctx : EncH264Ctx) (reqs : Nat → Bool)
    (hsz : 0 < ctx.gop_size) (hsz32 : ctx.gop_size < 2 ^ 32) (n : Nat) :
    (encStateBefore ctx reqs n).2.gop_index
      = if ctx.gop_closure then n % ctx.gop_size else n % 2 ^ 32 := by
  induction n with
  | zero =>
      cases h : ctx.gop_closure <;>
        simp [encStateBefore, encInitState, h, Nat.zero_mod]
  | succ n ih =>
      show (cedrus_enc_h264_job_prepare ctx _ _).2.2.gop_index = _
      rw [prepare_gop_index, ih]
      by_cases h : ctx.gop_closure = true
      · simp only [h, if_true, u32]
        have h1 : n % ctx.gop_size + 1 < 2 ^ 32 := by
          have := Nat.mod_lt n hsz
          omega
        rw [Nat.mod_eq_of_lt h1]
        rcases Nat.lt_or_ge 1 ctx.gop_size with hg | hg
        · conv_lhs => rw [show (1 : Nat) = 1 % ctx.gop_size from
            (Nat.mod_eq_of_lt hg).symm]
          rw [← Nat.add_mod]
        · have hg1 : ctx.gop_size = 1 := by omega
          simp [hg1, Nat.mod_one]
      · simp only [u32]
        simp only [eq_false h, if_false]
        omega

/-- GOP index before Job `n` in open-GOP mode, with no side conditions. -/
theorem encGopIndexBefore_open (ctx : EncH264Ctx) (reqs : Nat → Bool)
    (h : ctx.gop_closure = false) (n : Nat) :
    (encStateBefore ctx reqs n).2.gop_index = n % 2 ^ 32 := by
  induction n with
  | zero => simp [encStateBefore, encInitState]
  | succ n ih =>
      show (cedrus_enc_h264_job_prepare ctx _ _).2.2.gop_index = _
      rw [prepare_gop_index, ih]
      simp only [h, u32]
      simp only [Bool.false_eq_true, if_false]
      omega

/-- The frame type produced by one `cedrus_enc_h264_job_prepare` call as
a function of the incoming force flag and GOP index. -/
theorem prepare_frame_type (ctx : EncH264Ctx) (f : Bool) (s : EncH264State) :
    (cedrus_enc_h264_job_prepare ctx f s).1.frame_type
      = if f then FrameType.idr
        else if ctx.gop_closure then
          (if s.gop_index = 0 then FrameType.idr else FrameType.p)
        else if s.gop_index = 0 then FrameType.idr
        else if 0 < ctx.gop_open_i_period ∧
            s.gop_index % ctx.gop_open_i_period = 0 then FrameType.i
        else FrameType.p := by
  cases f <;> rfl

/-- Claim C3: the frame type chosen at job-prepare follows the spec's
decision procedure.  In closed-GOP mode with `gop_size = 12` and no force
request, Job `n` is IDR exactly when `n` is a multiple of 12 and P
otherwise.  In open-GOP mode with `i_period = 4` and no force request,
Job 0 is IDR, Jobs at nonzero multiples of 4 are I and all others are P.
A pending force-key-frame request makes the Job IDR, the flag reaching a
Job is exactly that Job's request (the flag is consumed, never carried
over), and the frame type of any Job depends only on that Job's own
request (an earlier force request does not affect it). -/
theorem enc_frame_type_spec (ctx : EncH264Ctx) (reqs : Nat → Bool) (n : Nat) :
    (ctx.gop_closure = true → ctx.gop_size = 12 → reqs n = false →
      (encJob ctx reqs n).frame_type
        = (if n % 12 = 0 then FrameType.idr else FrameType.p)) ∧
    (ctx.gop_closure = false → ctx.gop_open_i_period = 4 → n < 2 ^ 32 →
      reqs n = false →
      (encJob ctx reqs n).frame_type
        = (if n = 0 then FrameType.idr
           else if n % 4 = 0 then FrameType.i else FrameType.p)) ∧
    (reqs n = true → (encJob ctx reqs n).frame_type = FrameType.idr) ∧
    ((encStateBefore ctx reqs n).1 = reqs n) ∧
    (∀ reqs2 : Nat → Bool, 0 < ctx.gop_size → ctx.gop_size < 2 ^ 32 →
      reqs2 n = reqs n →
      (encJob ctx reqs2 n).frame_type = (encJob ctx reqs n).frame_type) := by
  refine ⟨?_, ?_, ?_, encFlagBefore ctx reqs n, ?_⟩
  · intro hc hsz hr
    unfold encJob
    rw [prepare_frame_type, encFlagBefore, hr,
      encGopIndexBefore ctx reqs (by omega) (by norm_num [hsz]) n]
    simp only [hc, hsz, if_true, if_false, Bool.false_eq_true]
  · intro hc hp hn hr
    unfold encJob
    rw [prepare_frame_type, encFlagBefore, hr, encGopIndexBefore_open ctx reqs hc n,
      Nat.mod_eq_of_lt hn]
    simp only [hc, hp, Bool.false_eq_true, if_false]
    by_cases h0 : n = 0
    · simp [h0]
    · simp only [h0, if_false]
      by_cases h4 : n % 4 = 0 <;> simp [h0, h4]
  · intro hr
    unfold encJob
    rw [prepare_frame_type, encFlagBefore, hr]
    simp
  · intro reqs2 hsz hsz32 hr
    unfold encJob
    rw [prepare_frame_type, prepare_frame_type, encFlagBefore, encFlagBefore, hr,
      encGopIndexBefore ctx reqs hsz hsz32 n,
      encGopIndexBefore ctx reqs2 hsz hsz32 n]

/-- Control values used by the C3 witness: closed GOP of size 12. -/
def ctxClosed12 : EncH264Ctx :=
  ⟨true, 12, 4, 8, 8, 10, 40, 26, 28, false⟩

/-- Control values used by the C3 witness: open GOP, I period 4. -/
def ctxOpen4 : EncH264Ctx :=
  ⟨false, 12, 4, 8, 8, 10, 40, 26, 28, false⟩

/-- A request stream with no force-key-frame request. -/
def noReq : Nat → Bool := fun _ => false

/-- A request stream with a single force-key-frame request before Job 3. -/
def reqAt3 : Nat → Bool := fun n => n = 3

/-- Witness for C3: Job 24 of the closed-GOP-12 stream, Job 8 of the
open-GOP-period-4 stream, and a forced Job 3. -/
theorem enc_frame_type_spec_witness :
    (encJob ctxClosed12 noReq 24).frame_type
      = (if 24 % 12 = 0 then FrameType.idr else FrameType.p) ∧
    (encJob ctxOpen4 noReq 8).frame_type
      = (if 8 = 0 then FrameType.idr
         else if 8 % 4 = 0 then FrameType.i else FrameType.p) ∧
    (encJob ctxOpen4 reqAt3 3).frame_type = FrameType.idr :=
  ⟨(enc_frame_type_spec ctxClosed12 noReq 24).1 rfl rfl rfl,
   (enc_frame_type_spec ctxOpen4 noReq 8).2.1 rfl rfl (by norm_num) rfl,
   (enc_frame_type_spec ctxOpen4 reqAt3 3).2.2.1 (by decide)⟩

/-! ### Frame number and picture order count (C7) -/

theorem prepare_job_frame_num (ctx : EncH264Ctx) (f : Bool) (s : EncH264State) :
    (cedrus_enc_h264_job_prepare ctx f s).1.frame_num
      = if (cedrus_enc_h264_job_prepare ctx f s).1.frame_type = FrameType.idr
        then 0 else s.frame_num := rfl

theorem prepare_job_poc (ctx : EncH264Ctx) (f : Bool) (s : EncH264State) :
    (cedrus_enc_h264_job_prepare ctx f s).1.pic_order_cnt_lsb
      = if (cedrus_enc_h264_job_prepare ctx f s).1.frame_type = FrameType.idr
        then 0 else s.pic_order_cnt_lsb := rfl

theorem prepare_state_frame_num (ctx : EncH264Ctx) (f : Bool) (s : EncH264State) :
    (cedrus_enc_h264_job_prepare ctx f s).2.2.frame_num
      = u32 ((cedrus_enc_h264_job_prepare ctx f s).1.frame_num + 1)
          % 2 ^ ctx.log2_max_frame_num := rfl

theorem prepare_state_poc (ctx : EncH264Ctx) (f : Bool) (s : EncH264State) :
    (cedrus_enc_h264_job_prepare ctx f s).2.2.pic_order_cnt_lsb
      = u32 ((cedrus_enc_h264_job_prepare ctx f s).1.pic_order_cnt_lsb + 2)
          % 2 ^ ctx.log2_max_pic_order_cnt_lsb := rfl

/-- The persistent `frame_num` is always below its wrap bound. -/
theorem encStateFrameNumLt (ctx : EncH264Ctx) (reqs : Nat → Bool) (n : Nat) :
    (encStateBefore ctx reqs n).2.frame_num < 2 ^ ctx.log2_max_frame_num := by
  cases n with
  | zero => exact Nat.pos_pow_of_pos _ (by norm_num)
  | succ n =>
      show (cedrus_enc_h264_job_prepare ctx _ _).2.2.frame_num < _
      rw [prepare_state_frame_num]
      exact Nat.mod_lt _ (Nat.pos_pow_of_pos _ (by norm_num))

/-- The persistent `pic_order_cnt_lsb` is always below its wrap bound. -/
theorem encStatePocLt (ctx : EncH264Ctx) (reqs : Nat → Bool) (n : Nat) :
    (encStateBefore ctx reqs n).2.pic_order_cnt_lsb
      < 2 ^ ctx.log2_max_pic_order_cnt_lsb := by
  cases n with
  | zero => exact Nat.pos_pow_of_pos _ (by norm_num)
  | succ n =>
      show (cedrus_enc_h264_job_prepare ctx _ _).2.2.pic_order_cnt_lsb < _
      rw [prepare_state_poc]
      exact Nat.mod_lt _ (Nat.pos_pow_of_pos _ (by norm_num))

/-- Claim C7: every Job's `frame_num` stays below
`2 ^ log2_max_frame_num` and its `pic_order_cnt_lsb` below
`2 ^ log2_max_pic_order_cnt_lsb`; every IDR Job carries
`frame_num = 0` and `pic_order_cnt_lsb = 0`; and between consecutive
non-IDR-reset Jobs `frame_num` advances by 1 and `pic_order_cnt_lsb` by
2, each reduced modulo its bound (the `log2_max` bounds fit an `unsigned
int`, as the driver fixes them at 8). -/
theorem enc_counter_spec (ctx : EncH264Ctx) (reqs : Nat → Bool) (n : Nat) :
    (encJob ctx reqs n).frame_num < 2 ^ ctx.log2_max_frame_num ∧
    (encJob ctx reqs n).pic_order_cnt_lsb
      < 2 ^ ctx.log2_max_pic_order_cnt_lsb ∧
    ((encJob ctx reqs n).frame_type = FrameType.idr →
      (encJob ctx reqs n).frame_num = 0 ∧
      (encJob ctx reqs n).pic_order_cnt_lsb = 0) ∧
    (ctx.log2_max_frame_num < 32 →
      (encJob ctx reqs (n + 1)).frame_type ≠ FrameType.idr →
      (encJob ctx reqs (n + 1)).frame_num
        = ((encJob ctx reqs n).frame_num + 1) % 2 ^ ctx.log2_max_frame_num) ∧
    (ctx.log2_max_pic_order_cnt_lsb < 32 →
      (encJob ctx reqs (n + 1)).frame_type ≠ FrameType.idr →
      (encJob ctx reqs (n + 1)).pic_order_cnt_lsb
        = ((encJob ctx reqs n).pic_order_cnt_lsb + 2)
            % 2 ^ ctx.log2_max_pic_order_cnt_lsb) := by
  have hframe : ∀ m, (encJob ctx reqs m).frame_num < 2 ^ ctx.log2_max_frame_num := by
    intro m
    unfold encJob
    rw [prepare_job_frame_num]
    by_cases h : (cedrus_enc_h264_job_prepare ctx (encStateBefore ctx reqs m).1
        (encStateBefore ctx reqs m).2).1.frame_type = FrameType.idr
    · simp [h, Nat.pos_pow_of_pos]
    · simp only [h, if_false]
      exact encStateFrameNumLt ctx reqs m
  have hpoc : ∀ m, (encJob ctx reqs m).pic_order_cnt_lsb
      < 2 ^ ctx.log2_max_pic_order_cnt_lsb := by
    intro m
    unfold encJob
    rw [prepare_job_poc]
    by_cases h : (cedrus_enc_h264_job_prepare ctx (encStateBefore ctx reqs m).1
        (encStateBefore ctx reqs m).2).1.frame_type = FrameType.idr
    · simp [h, Nat.pos_pow_of_pos]
    · simp only [h, if_false]
      exact encStatePocLt ctx reqs m
  refine ⟨hframe n, hpoc n, ?_, ?_, ?_⟩
  · intro hidr
    unfold encJob at hidr ⊢
    rw [prepare_job_frame_num, prepare_job_poc, hidr]
    simp
  · intro hlog hnidr
    have hstep : (encStateBefore ctx reqs (n + 1)).2.frame_num
        = u32 ((encJob ctx reqs n).frame_num + 1) % 2 ^ ctx.log2_max_frame_num := by
      show (cedrus_enc_h264_job_prepare ctx _ _).2.2.frame_num = _
      rw [prepare_state_frame_num]
      rfl
    unfold encJob at hnidr ⊢
    rw [prepare_job_frame_num]
    simp only [hnidr, if_false]
    rw [hstep]
    have hb := hframe n
    have hfit : (encJob ctx reqs n).frame_num + 1 < 2 ^ 32 := by
      have h32 : (2 : Nat) ^ ctx.log2_max_frame_num ≤ 2 ^ 31 :=
        Nat.pow_le_pow_right (by norm_num) (by omega)
      have h31 : (2 : Nat) ^ 31 < 2 ^ 32 := by norm_num
      omega
    rw [show u32 ((encJob ctx reqs n).frame_num + 1)
        = (encJob ctx reqs n).frame_num + 1 from Nat.mod_eq_of_lt hfit]
    rfl
  · intro hlog hnidr
    have hstep : (encStateBefore ctx reqs (n + 1)).2.pic_order_cnt_lsb
        = u32 ((encJob ctx reqs n).pic_order_cnt_lsb + 2)
            % 2 ^ ctx.log2_max_pic_order_cnt_lsb := by
      show (cedrus_enc_h264_job_prepare ctx _ _).2.2.pic_order_cnt_lsb = _
      rw [prepare_state_poc]
      rfl
    unfold encJob at hnidr ⊢
    rw [prepare_job_poc]
    simp only [hnidr, if_false]
    rw [hstep]
    have hb := hpoc n
    have hfit : (encJob ctx reqs n).pic_order_cnt_lsb + 2 < 2 ^ 32 := by
      have h32 : (2 : Nat) ^ ctx.log2_max_pic_order_cnt_lsb ≤ 2 ^ 31 :=
        Nat.pow_le_pow_right (by norm_num) (by omega)
      have h31 : (2 : Nat) ^ 31 < 2 ^ 32 := by norm_num
      omega
    rw [show u32 ((encJob ctx reqs n).pic_order_cnt_lsb + 2)
        = (encJob ctx reqs n).pic_order_cnt_lsb + 2 from Nat.mod_eq_of_lt hfit]
    rfl

/-- Witness for C7 at the closed-GOP-12 control set, Jobs 5 and 6. -/
theorem enc_counter_spec_witness :
    (encJob ctxClosed12 noReq 5).frame_num
      < 2 ^ ctxClosed12.log2_max_frame_num ∧
    ctxClosed12.log2_max_frame_num < 32 ∧
    (encJob ctxClosed12 noReq 6).frame_type ≠ FrameType.idr ∧
    (encJob ctxClosed12 noReq 6).frame_num
      = ((encJob ctxClosed12 noReq 5).frame_num + 1)
          % 2 ^ ctxClosed12.log2_max_frame_num :=
  ⟨(enc_counter_spec ctxClosed12 noReq 5).1, by decide, by decide,
   (enc_counter_spec ctxClosed12 noReq 5).2.2.2.1 (by decide) (by decide)⟩

/-! ### QP selection (C10) -/

theorem prepare_job_qp (ctx : EncH264Ctx) (f : Bool) (s : EncH264State) :
    (cedrus_enc_h264_job_prepare ctx f s).1.qp
      = clampQp ctx (qpBase ctx
          (cedrus_enc_h264_job_prepare ctx f s).1.frame_type) := rfl

/-- Claim C10: the QP used for a Job is the per-frame-type QP control
value (`qp_i` for IDR/I frames, `qp_p` for P frames) clamped into
`[qp_min, qp_max]`; the result always lies in that closed interval, so a
value outside it is saturated, not rejected. -/
theorem enc_qp_spec (ctx : EncH264Ctx) (reqs : Nat → Bool) (n : Nat)
    (hq : ctx.qp_min ≤ ctx.qp_max) :
    ((encJob ctx reqs n).frame_type = FrameType.idr ∨
        (encJob ctx reqs n).frame_type = FrameType.i →
      (encJob ctx reqs n).qp = max ctx.qp_min (min ctx.qp_max ctx.qp_i)) ∧
    ((encJob ctx reqs n).frame_type = FrameType.p →
      (encJob ctx reqs n).qp = max ctx.qp_min (min ctx.qp_max ctx.qp_p)) ∧
    ctx.qp_min ≤ (encJob ctx reqs n).qp ∧
    (encJob ctx reqs n).qp ≤ ctx.qp_max := by
  have hqp : (encJob ctx reqs n).qp
      = clampQp ctx (qpBase ctx (encJob ctx reqs n).frame_type) :=
    prepare_job_qp ctx _ _
  refine ⟨?_, ?_, ?_, ?_⟩
  · intro h
    rcases h with h | h <;> rw [hqp, h] <;> simp only [qpBase, clampQp] <;>
      split_ifs <;> omega
  · intro h
    rw [hqp, h]
    simp only [qpBase, clampQp]
    split_ifs <;> omega
  · rw [hqp]
    rcases (encJob ctx reqs n).frame_type <;> simp only [qpBase, clampQp] <;>
      split_ifs <;> omega
  · rw [hqp]
    rcases (encJob ctx reqs n).frame_type <;> simp only [qpBase, clampQp] <;>
      split_ifs <;> omega

/-- Witness for C10 at the closed-GOP-12 control set, Jobs 0 (IDR, QP
clamped from `qp_i = 26`) and 1 (P, QP from `qp_p = 28`). -/
theorem enc_qp_spec_witness :
    ctxClosed12.qp_min ≤ ctxClosed12.qp_max ∧
    (encJob ctxClosed12 noReq 0).qp
      = max ctxClosed12.qp_min (min ctxClosed12.qp_max ctxClosed12.qp_i) ∧
    (encJob ctxClosed12 noReq 1).qp
      = max ctxClosed12.qp_min (min ctxClosed12.qp_max ctxClosed12.qp_p) :=
  ⟨by decide,
   (enc_qp_spec ctxClosed12 noReq 0 (by decide)).1 (Or.inl (by decide)),
   (enc_qp_spec ctxClosed12 noReq 1 (by decide)).2.1 (by decide)⟩

/-! ## Interrupt / watchdog completion race (cedrus.c)

`cedrus_irq` and `cedrus_watchdog` race over one dispatched Job.  The
kernel guarantees that `cancel_delayed_work` is atomic: it returns true
(the pending timer was cancelled, the work will never run) or false (the
work already left the pending state, i.e. the watchdog ran or is
running).  We model the shared state as: whether the delayed watchdog
work is still pending, the current m2m context (present while a Job is
outstanding, cleared by `cedrus_context_job_finish`) together with the
engine's interrupt status, and a trace of the externally visible
actions. -/

inductive IrqStatus
  | none
  | error
  | success
  deriving DecidableEq

/-- `VB2_BUF_STATE_DONE` / `VB2_BUF_STATE_ERROR`. -/
inductive BufState
  | done
  | error
  deriving DecidableEq

/-- Externally visible actions of the two completion paths.  `jobFinish`
stands for `cedrus_context_job_finish`: engine finish bookkeeping, the
`memset` clearing the Job structure, and the buffer-completion report,
which that function performs together, exactly once per call. -/
inductive Action
  | engineIrqDisable
  | engineIrqClear
  | hwReset
  | jobFinish (state : BufState)
  deriving DecidableEq

/-- Return value of the interrupt handler. -/
inductive IrqRet
  | handled
  | notHandled
  deriving DecidableEq

structure RaceState where
  /-- The delayed watchdog work is armed and still cancelable. -/
  wdPending : Bool
  /-- `v4l2_m2m_get_curr_priv`: the context of the outstanding Job (with
  its engine interrupt status), or none once the Job was finished. -/
  curCtx : Option IrqStatus
  /-- `proc->ctx_active` is set at dispatch and left in place, so the
  spurious path can disable/clear on it. -/
  ctxActive : Bool
  trace : List Action
  deriving DecidableEq

/-- Embeds `cedrus_irq_spurious` (for one processing unit): disable and
clear the interrupt on the active context, complete nothing. -/
def cedrus_irq_spurious (s : RaceState) : RaceState :=
  if s.ctxActive then
    { s with trace := s.trace ++ [.engineIrqDisable, .engineIrqClear] }
  else s

/-- Embeds `cedrus_watchdog` running on timer expiry (the work only runs
if it was still pending; a successful cancel removes it).  If no Job is
outstanding it returns; otherwise it resets the hardware and finishes
the Job with an error. -/
def cedrus_watchdog (s : RaceState) : RaceState :=
  if s.wdPending then
    let s1 : RaceState := { s with wdPending := false }
    match s1.curCtx with
    | Option.none => s1
    | Option.some _ =>
        { s1 with curCtx := Option.none,
                  trace := s1.trace ++ [.hwReset, .jobFinish .error] }
  else s

/-- Embeds `cedrus_irq`: atomically cancel the watchdog work
(`cancel_delayed_work` reports whether the cancel won); on a lost cancel
treat the interrupt as spurious; otherwise read the engine status, bail
out on `CEDRUS_IRQ_NONE`, and on `ERROR`/`SUCCESS` disable and clear the
interrupt before finishing the Job. -/
def cedrus_irq (s : RaceState) : RaceState × IrqRet :=
  let won := s.wdPending
  let s1 : RaceState := { s with wdPending := false }
  if ¬ won then
    (cedrus_irq_spurious s1, .handled)
  else
    match s1.curCtx with
    | Option.none => (cedrus_irq_spurious s1, .notHandled)
    | Option.some status =>
        if status = IrqStatus.none then (s1, .notHandled)
        else
          let bufState := if status = IrqStatus.error then BufState.error
            else BufState.done
          ({ s1 with curCtx := Option.none,
                     trace := s1.trace ++ [.engineIrqDisable, .engineIrqClear,
                                           .jobFinish bufState] },
           .handled)

/-- The state right after Job dispatch (`cedrus_context_job_run` steps
7-9): watchdog armed, context active and current, nothing completed
yet.  `st` is the engine interrupt status the hardware will report. -/
def dispatched (st : IrqStatus) : RaceState :=
  ⟨true, Option.some st, true, []⟩

/-- Number of Job completions (Job cleared + buffer completion
reported) in a trace. -/
def completionCount (tr : List Action) : Nat :=
  (tr.filter (fun a => match a with | .jobFinish _ => true | _ => false)).length

/-- Claim C1: for a dispatched Job whose interrupt reports a genuine
engine status (`ERROR` or `SUCCESS`, not `NONE`), in both interleavings
of the interrupt handler and the watchdog expiry exactly one completion
is performed: the interrupt handler first atomically cancels the
watchdog, and whichever path loses the race performs no completion, so
the Job structure is cleared and buffer completion reported exactly
once. -/
theorem irq_watchdog_race_spec (st : IrqStatus) (h : st ≠ IrqStatus.none) :
    completionCount (cedrus_watchdog (cedrus_irq (dispatched st)).1).trace = 1 ∧
    completionCount (cedrus_irq (dispatched st)).1.trace = 1 ∧
    (cedrus_watchdog (cedrus_irq (dispatched st)).1).trace
      = (cedrus_irq (dispatched st)).1.trace ∧
    completionCount (cedrus_irq (cedrus_watchdog (dispatched st))).1.trace = 1 ∧
    completionCount (cedrus_watchdog (dispatched st)).trace = 1 ∧
    completionCount (cedrus_irq (cedrus_watchdog (dispatched st))).1.trace
      = completionCount (cedrus_watchdog (dispatched st)).trace := by
  cases st with
  | none => exact absurd rfl h
  | error => exact ⟨rfl, rfl, rfl, rfl, rfl, rfl⟩
  | success => exact ⟨rfl, rfl, rfl, rfl, rfl, rfl⟩

/-- Witness for C1 at a successful encode/decode interrupt. -/
theorem irq_watchdog_race_spec_witness :
    IrqStatus.success ≠ IrqStatus.none ∧
    (completionCount
        (cedrus_watchdog (cedrus_irq (dispatched IrqStatus.success)).1).trace = 1 ∧
     completionCount (cedrus_irq (dispatched IrqStatus.success)).1.trace = 1 ∧
     (cedrus_watchdog (cedrus_irq (dispatched IrqStatus.success)).1).trace
       = (cedrus_irq (dispatched IrqStatus.success)).1.trace ∧
     completionCount
        (cedrus_irq (cedrus_watchdog (dispatched IrqStatus.success))).1.trace = 1 ∧
     completionCount (cedrus_watchdog (dispatched IrqStatus.success)).trace = 1 ∧
     completionCount
        (cedrus_irq (cedrus_watchdog (dispatched IrqStatus.success))).1.trace
       = completionCount (cedrus_watchdog (dispatched IrqStatus.success)).trace) :=
  ⟨by decide, irq_watchdog_race_spec IrqStatus.success (by decide)⟩

/-- Counterexample for C2: when the interrupt wins the cancel race but
the engine reports `CEDRUS_IRQ_NONE`, `cedrus_irq` returns `IRQ_NONE`
without any completion and without clearing or disabling the interrupt
— the claimed Done-with-error completion on an unexpected `None` does
not happen. -/
theorem irq_status_none_no_completion :
    completionCount (cedrus_irq (dispatched IrqStatus.none)).1.trace = 0 ∧
    (cedrus_irq (dispatched IrqStatus.none)).1.trace = [] ∧
    (cedrus_irq (dispatched IrqStatus.none)).2 = IrqRet.notHandled := by
  exact ⟨rfl, rfl, rfl⟩

/-- Claim C2 (amended): for an interrupt that wins the watchdog cancel
on a dispatched Job, `ERROR` forces a Done-with-error completion and
`SUCCESS` forces a Done completion, in both cases with the interrupt
disabled and cleared before the Job is completed (the trace order);
an unexpected `NONE` produces no completion, no clear/disable, and the
interrupt is reported as not handled. -/
theorem irq_status_completion_spec (st : IrqStatus) :
    (st = IrqStatus.error →
      (cedrus_irq (dispatched st)).1.trace
        = [.engineIrqDisable, .engineIrqClear, .jobFinish BufState.error] ∧
      (cedrus_irq (dispatched st)).2 = IrqRet.handled) ∧
    (st = IrqStatus.success →
      (cedrus_irq (dispatched st)).1.trace
        = [.engineIrqDisable, .engineIrqClear, .jobFinish BufState.done] ∧
      (cedrus_irq (dispatched st)).2 = IrqRet.handled) ∧
    (st = IrqStatus.none →
      (cedrus_irq (dispatched st)).1.trace = [] ∧
      (cedrus_irq (dispatched st)).2 = IrqRet.notHandled) := by
  cases st with
  | none =>
      refine ⟨fun h => ?_, fun h => ?_, fun h => ?_⟩
      · exact absurd h (by decide)
      · exact absurd h (by decide)
      · exact ⟨rfl, rfl⟩
  | error =>
      refine ⟨fun h => ?_, fun h => ?_, fun h => ?_⟩
      · exact ⟨rfl, rfl⟩
      · exact absurd h (by decide)
      · exact absurd h (by decide)
  | success =>
      refine ⟨fun h => ?_, fun h => ?_, fun h => ?_⟩
      · exact absurd h (by decide)
      · exact ⟨rfl, rfl⟩
      · exact absurd h (by decide)

/-- Witness for C2 (amended) at an error interrupt. -/
theorem irq_status_completion_spec_witness :
    (cedrus_irq (dispatched IrqStatus.error)).1.trace
      = [.engineIrqDisable, .engineIrqClear, .jobFinish BufState.error] ∧
    (cedrus_irq (dispatched IrqStatus.error)).2 = IrqRet.handled :=
  (irq_status_completion_spec IrqStatus.error).1 rfl

/-! ## H.265 slice-data bitstream skip (cedrus_dec_h265.c)

The tail of `cedrus_dec_h265_job_configure` positions the hardware
bitstream pointer: a zero `data_byte_offset` is rejected as unsupported
before any skip is programmed; otherwise the driver skips to one byte
before the declared offset, reads that byte, locates the RBSP stop bit
(first set bit from the LSB, inclusive) and re-skips the remaining
bits. -/

inductive H265BitsOp
  | skip (bits : Nat)
  | read (bits : Nat)
  deriving DecidableEq

/-- Linux error codes used by the skip phase. -/
def EOPNOTSUPP : Nat := 95
def EINVAL : Nat := 22

/-- Index of the first set bit of `padding` among bits 0..7 (8 when no
bit is set), as the `for (count = 0; count < 8; count++)` loop computes
it. -/
def firstSetBit8 (padding : Nat) : Nat :=
  ((List.range 8).find? (fun i => padding.testBit i)).getD 8

/-- Embeds the bitstream-skip tail of `cedrus_dec_h265_job_configure`
(from the `data_byte_offset` check onward): returns the bit-level
operations programmed into the hardware and the error, if any, the
function returns.  `padding` is the byte the hardware returns for the
8-bit read. -/
def cedrus_dec_h265_slice_skip (data_byte_offset : Nat) (padding : Nat) :
    List H265BitsOp × Option Nat :=
  if data_byte_offset = 0 then ([], Option.some EOPNOTSUPP)
  else
    let ops := [H265BitsOp.skip ((data_byte_offset - 1) * 8), H265BitsOp.read 8]
    if padding = 0 then (ops, Option.some EINVAL)
    else
      let count := firstSetBit8 padding + 1
      (ops ++ [H265BitsOp.skip (8 - count)], Option.none)

/-- The dispatch tail of `cedrus_context_job_run`: a configure error
completes the Job with an error (no watchdog armed, no trigger) while a
successful configure arms the watchdog and triggers the hardware. -/
inductive DispatchAct
  | jobFinishError
  | armWatchdog
  | trigger
  deriving DecidableEq

/-- Embeds the `job_configure` result handling of
`cedrus_context_job_run`. -/
def cedrus_context_job_run_tail (configure_error : Option Nat) : List DispatchAct :=
  match configure_error with
  | Option.some _ => [.jobFinishError]
  | Option.none => [.armWatchdog, .trigger]

/-- Claim C9: for every H.265 decode Job whose slice parameters carry
`data_byte_offset = 0`, the job-configure bitstream phase fails with
`EOPNOTSUPP` before programming any bitstream skip, and the dispatch
path confines the failure to that Job: it finishes the Job with an
error and neither arms the watchdog nor triggers the hardware. -/
theorem h265_zero_offset_unsupported (padding : Nat) :
    cedrus_dec_h265_slice_skip 0 padding = ([], Option.some EOPNOTSUPP) ∧
    cedrus_context_job_run_tail (cedrus_dec_h265_slice_skip 0 padding).2
      = [DispatchAct.jobFinishError] := by
  exact ⟨rfl, rfl⟩

/-- Witness for C9 at a concrete padding byte. -/
theorem h265_zero_offset_unsupported_witness :
    cedrus_dec_h265_slice_skip 0 7 = ([], Option.some EOPNOTSUPP) :=
  (h265_zero_offset_unsupported 7).1

/-! ## H.264 DPB slot allocation (cedrus_write_frame_list, cedrus_dec_h264.c)

`cedrus_write_frame_list` walks the supplied DPB entry list.  For each
entry flagged valid it resolves the reference timestamp to an
already-known picture buffer (`cedrus_buffer_picture_find`, modelled as
the partial map `find` from timestamps to buffer identifiers) and reads
that buffer's stored hardware slot (`h264_buffer->position`, modelled as
the map `pos`).  The resolved slot's bit is or-ed into `used_dpbs`; an
entry sharing the output timestamp records its slot as the output slot;
remaining active entries are programmed into the per-slot frame-info
table.  The output picture's slot is the recorded output slot, or the
first zero bit of `used_dpbs` otherwise, and is stored back into the
output buffer. -/

/-- A `struct v4l2_h264_dpb_entry` restricted to the fields
`cedrus_write_frame_list` reads: the VALID flag, the ACTIVE flag and
`reference_ts`. -/
structure DpbEntry where
  valid : Bool
  active : Bool
  reference_ts : Nat
  deriving DecidableEq

/-- The loop state of `cedrus_write_frame_list`: the `used_dpbs`
bitmask, the output slot found so far (`output`, -1 modelled as none)
and the slots whose frame-info records were written. -/
structure ScanAcc where
  used_dpbs : Nat
  output : Option Nat
  programmed : List Nat
  deriving DecidableEq

def CEDRUS_DEC_H264_FRAME_NUM : Nat := 18

/-- One iteration of the DPB loop of `cedrus_write_frame_list`. -/
def dpbScanStep (find : Nat → Option Nat) (pos : Nat → Nat) (timestamp : Nat)
    (acc : ScanAcc) (e : DpbEntry) : ScanAcc :=
  if e.valid = false then acc
  else
    match find e.reference_ts with
    | Option.none => acc
    | Option.some b =>
        let p := pos b
        let used := acc.used_dpbs ||| 2 ^ p
        if timestamp = e.reference_ts then ⟨used, Option.some p, acc.programmed⟩
        else if e.active = false then ⟨used, acc.output, acc.programmed⟩
        else ⟨used, acc.output, acc.programmed ++ [p]⟩

/-- The DPB loop of `cedrus_write_frame_list`. -/
def dpbScan (find : Nat → Option Nat) (pos : Nat → Nat) (timestamp : Nat)
    (dpb : List DpbEntry) : ScanAcc :=
  dpb.foldl (dpbScanStep find pos timestamp) ⟨0, Option.none, []⟩

/-- Linear scan for the first clear bit from `start`, `fuel` positions. -/
def ffzFrom (mask : Nat) : Nat → Nat → Nat
  | start, 0 => start
  | start, fuel + 1 =>
      if mask.testBit start then ffzFrom mask (start + 1) fuel else start

/-- Embeds `find_first_zero_bit(mask, size)`: lowest clear bit index,
or `size` when all `size` low bits are set. -/
def find_first_zero_bit (mask size : Nat) : Nat := ffzFrom mask 0 size

/-- Embeds `cedrus_write_frame_list`: returns the slot written for the
output picture (`VE_H264_OUTPUT_FRAME_IDX`) and the list of slots whose
frame-info records were written for references. -/
def cedrus_write_frame_list (find : Nat → Option Nat) (pos : Nat → Nat)
    (timestamp : Nat) (dpb : List DpbEntry) : Nat × List Nat :=
  let acc := dpbScan find pos timestamp dpb
  let position :=
    match acc.output with
    | Option.some p => p
    | Option.none => find_first_zero_bit acc.used_dpbs CEDRUS_DEC_H264_FRAME_NUM
  (position, acc.programmed)

/-- The per-buffer stored slots after the call: only the output
picture's buffer (`outBuf`) has its `position` overwritten. -/
def positionsAfter (find : Nat → Option Nat) (pos : Nat → Nat)
    (timestamp : Nat) (dpb : List DpbEntry) (outBuf : Nat) : Nat → Nat :=
  fun b => if b = outBuf
    then (cedrus_write_frame_list find pos timestamp dpb).1
    else pos b

/-- Whether `q` is the stored slot of some valid, resolvable DPB
entry. -/
def isSlotOf (find : Nat → Option Nat) (pos : Nat → Nat)
    (l : List DpbEntry) (q : Nat) : Bool :=
  l.any (fun e => e.valid &&
    (match find e.reference_ts with
     | Option.some b => decide (pos b = q)
     | Option.none => false))

/-! ### Supporting lemmas for the DPB scan -/

theorem ffzFrom_ge (mask : Nat) : ∀ (fuel start : Nat),
    start ≤ ffzFrom mask start fuel := by
  intro fuel
  induction fuel with
  | zero => intro start; exact Nat.le_refl start
  | succ fuel ih =>
      intro start
      unfold ffzFrom
      by_cases h : mask.testBit start = true
      · rw [if_pos h]
        exact Nat.le_trans (Nat.le_succ start) (ih (start + 1))
      · rw [if_neg h]

theorem ffzFrom_le (mask : Nat) : ∀ (fuel start : Nat),
    ffzFrom mask start fuel ≤ start + fuel := by
  intro fuel
  induction fuel with
  | zero => intro start; exact Nat.le_refl start
  | succ fuel ih =>
      intro start
      unfold ffzFrom
      by_cases h : mask.testBit start = true
      · rw [if_pos h]
        have := ih (start + 1)
        omega
      · rw [if_neg h]
        omega

theorem ffzFrom_before (mask : Nat) : ∀ (fuel start m : Nat),
    start ≤ m → m < ffzFrom mask start fuel → mask.testBit m = true := by
  intro fuel
  induction fuel with
  | zero =>
      intro start m h1 h2
      unfold ffzFrom at h2
      omega
  | succ fuel ih =>
      intro start m h1 h2
      unfold ffzFrom at h2
      by_cases h : mask.testBit start = true
      · rw [if_pos h] at h2
        rcases Nat.eq_or_lt_of_le h1 with he | hl
        · rw [← he]
          exact h
        · exact ih (start + 1) m hl h2
      · rw [if_neg h] at h2
        omega

theorem ffzFrom_found (mask : Nat) : ∀ (fuel start : Nat),
    ffzFrom mask start fuel < start + fuel →
    mask.testBit (ffzFrom mask start fuel) = false := by
  intro fuel
  induction fuel with
  | zero =>
      intro start h
      unfold ffzFrom at h
      omega
  | succ fuel ih =>
      intro start h
      unfold ffzFrom at h ⊢
      by_cases hb : mask.testBit start = true
      · rw [if_pos hb] at h ⊢
        exact ih (start + 1) (by omega)
      · rw [if_neg hb]
        cases hc : mask.testBit start with
        | false => rfl
        | true => exact absurd hc hb

/-- Bit `q` of the scanned `used_dpbs` mask is set exactly when `q` is
the slot of some valid, resolvable entry (given the initial mask's
bits). -/
theorem dpbScan_used_testBit (find : Nat → Option Nat) (pos : Nat → Nat)
    (timestamp : Nat) :
    ∀ (l : List DpbEntry) (acc : ScanAcc) (q : Nat),
    ((l.foldl (dpbScanStep find pos timestamp) acc).used_dpbs).testBit q
      = (acc.used_dpbs.testBit q || isSlotOf find pos l q) := by
  intro l
  induction l with
  | nil => intro acc q; simp [isSlotOf]
  | cons e t ih =>
      intro acc q
      rw [List.foldl_cons, ih]
      unfold dpbScanStep
      cases hv : e.valid with
      | false => simp [isSlotOf, hv]
      | true =>
          cases hfind : find e.reference_ts with
          | none => simp [isSlotOf, hv, hfind]
          | some b =>
              by_cases ht : timestamp = e.reference_ts
              · simp [isSlotOf, hv, hfind, ht, Nat.testBit_or,
                  Nat.testBit_two_pow, Bool.or_assoc]
              · by_cases ha : e.active = false
                · simp [isSlotOf, hv, hfind, ht, ha, Nat.testBit_or,
                    Nat.testBit_two_pow, Bool.or_assoc]
                · simp [isSlotOf, hv, hfind, ht, ha, Nat.testBit_or,
                    Nat.testBit_two_pow, Bool.or_assoc]

/-- If no valid entry carries the output timestamp, the scan leaves the
output slot untouched. -/
theorem dpbScan_output_skip (find : Nat → Option Nat) (pos : Nat → Nat)
    (timestamp : Nat) :
    ∀ (l : List DpbEntry) (acc : ScanAcc),
    (∀ e ∈ l, e.valid = true → e.reference_ts ≠ timestamp) →
    (l.foldl (dpbScanStep find pos timestamp) acc).output = acc.output := by
  intro l
  induction l with
  | nil => intro acc h; rfl
  | cons e t ih =>
      intro acc h
      rw [List.foldl_cons]
      have he := h e (by simp)
      have ht : ∀ e2 ∈ t, e2.valid = true → e2.reference_ts ≠ timestamp := by
        intro e2 he2 hv
        exact h e2 (by simp [he2]) hv
      rw [ih _ ht]
      unfold dpbScanStep
      cases hv : e.valid with
      | false => simp
      | true =>
          cases hfind : find e.reference_ts with
          | none => simp
          | some b =>
              have hne : ¬ timestamp = e.reference_ts := fun hc => (he hv) hc.symm
              by_cases ha : e.active = false <;> simp [hne, ha]

/-- Once some valid entry carries the output timestamp (which resolves
to buffer `b`), the scan's output slot is that buffer's slot. -/
theorem dpbScan_output_some (find : Nat → Option Nat) (pos : Nat → Nat)
    (timestamp : Nat) :
    ∀ (l : List DpbEntry) (acc : ScanAcc) (b : Nat),
    find timestamp = Option.some b →
    (acc.output = Option.some (pos b) ∨
      ∃ e ∈ l, e.valid = true ∧ e.reference_ts = timestamp) →
    (l.foldl (dpbScanStep find pos timestamp) acc).output = Option.some (pos b) := by
  intro l
  induction l with
  | nil =>
      intro acc b hf hd
      rcases hd with hd | ⟨e, he, _⟩
      · exact hd
      · exact absurd he (List.not_mem_nil e)
  | cons e t ih =>
      intro acc b hf hd
      rw [List.foldl_cons]
      by_cases hm : e.valid = true ∧ e.reference_ts = timestamp
      · apply ih _ b hf
        left
        rcases hm with ⟨hv, hts⟩
        unfold dpbScanStep
        simp [hv, hts, hf]
      · apply ih _ b hf
        rcases hd with hd | ⟨e2, he2, hv2, hts2⟩
        · left
          have hpr : (dpbScanStep find pos timestamp acc e).output = acc.output := by
            unfold dpbScanStep
            cases hv : e.valid with
            | false => simp
            | true =>
                cases hfind : find e.reference_ts with
                | none => simp
                | some b2 =>
                    have hne : ¬ timestamp = e.reference_ts := by
                      intro hc
                      exact hm ⟨hv, hc.symm⟩
                    by_cases ha : e.active = false <;> simp [hne, ha]
          rw [hpr, hd]
        · rcases List.mem_cons.mp he2 with he2 | he2
          · subst he2
            exact absurd ⟨hv2, hts2⟩ hm
          · right
            exact ⟨e2, he2, hv2, hts2⟩

/-- The scan's output slot, when set, is the stored slot of a valid
entry sharing the output timestamp. -/
theorem dpbScan_output_inv (find : Nat → Option Nat) (pos : Nat → Nat)
    (timestamp : Nat) :
    ∀ (l : List DpbEntry) (acc : ScanAcc) (q : Nat),
    (l.foldl (dpbScanStep find pos timestamp) acc).output = Option.some q →
    acc.output = Option.some q ∨
      ∃ e ∈ l, e.valid = true ∧ e.reference_ts = timestamp ∧
        ∃ b, find e.reference_ts = Option.some b ∧ q = pos b := by
  intro l
  induction l with
  | nil => intro acc q h; exact Or.inl h
  | cons e t ih =>
      intro acc q h
      rw [List.foldl_cons] at h
      rcases ih _ q h with hstep | ⟨e2, he2, rest⟩
      · unfold dpbScanStep at hstep
        cases hv : e.valid with
        | false =>
            rw [hv] at hstep
            simp at hstep
            exact Or.inl hstep
        | true =>
            rw [hv] at hstep
            cases hfind : find e.reference_ts with
            | none =>
                rw [hfind] at hstep
                simp at hstep
                exact Or.inl hstep
            | some b =>
                rw [hfind] at hstep
                by_cases hts : timestamp = e.reference_ts
                · simp [hts] at hstep
                  right
                  exact ⟨e, by simp, hv, hts.symm, b, hfind, hstep.symm⟩
                · by_cases ha : e.active = false <;>
                    simp [hts, ha] at hstep <;>
                    exact Or.inl hstep
      · exact Or.inr ⟨e2, List.mem_cons_of_mem e he2, rest⟩

/-- A slot programmed into the frame-info table belongs to a valid,
active entry whose timestamp differs from the output timestamp. -/
theorem dpbScan_programmed (find : Nat → Option Nat) (pos : Nat → Nat)
    (timestamp : Nat) :
    ∀ (l : List DpbEntry) (acc : ScanAcc) (p : Nat),
    p ∈ (l.foldl (dpbScanStep find pos timestamp) acc).programmed →
    p ∈ acc.programmed ∨
      ∃ e ∈ l, e.valid = true ∧ e.active = true ∧ e.reference_ts ≠ timestamp ∧
        ∃ b, find e.reference_ts = Option.some b ∧ p = pos b := by
  intro l
  induction l with
  | nil => intro acc p h; exact Or.inl h
  | cons e t ih =>
      intro acc p h
      rw [List.foldl_cons] at h
      rcases ih _ p h with hstep | ⟨e2, he2, rest⟩
      · unfold dpbScanStep at hstep
        cases hv : e.valid with
        | false =>
            rw [hv] at hstep
            simp at hstep
            exact Or.inl hstep
        | true =>
            rw [hv] at hstep
            cases hfind : find e.reference_ts with
            | none =>
                rw [hfind] at hstep
                simp at hstep
                exact Or.inl hstep
            | some b =>
                rw [hfind] at hstep
                by_cases hts : timestamp = e.reference_ts
                · simp [hts] at hstep
                  exact Or.inl hstep
                · by_cases ha : e.active = false
                  · simp [hts, ha] at hstep
                    exact Or.inl hstep
                  · simp [hts, ha] at hstep
                    rcases hstep with hstep | hstep
                    · exact Or.inl hstep
                    · right
                      have hact : e.active = true := by
                        cases hc : e.active
                        · exact absurd hc ha
                        · rfl
                      exact ⟨e, by simp, hv, hact,
                        fun hc => hts hc.symm, b, hfind, hstep⟩
      · exact Or.inr ⟨e2, List.mem_cons_of_mem e he2, rest⟩

/-- A slot of some valid, resolvable entry is a member of the entries'
resolved-slot list. -/
theorem isSlotOf_mem (find : Nat → Option Nat) (pos : Nat → Nat)
    (l : List DpbEntry) (q : Nat) (h : isSlotOf find pos l q = true) :
    q ∈ l.filterMap (fun e =>
      if e.valid = true then (find e.reference_ts).map pos else Option.none) := by
  rcases List.any_eq_true.mp h with ⟨e, he, hpred⟩
  rcases Bool.and_eq_true_iff.mp hpred with ⟨hv, hmatch⟩
  cases hfind : find e.reference_ts with
  | none =>
      rw [hfind] at hmatch
      simp at hmatch
  | some b =>
      rw [hfind] at hmatch
      have hq : pos b = q := of_decide_eq_true hmatch
      exact List.mem_filterMap.mpr ⟨e, he, by simp [hv, hfind, hq]⟩

/-- With at most 16 DPB entries, one of the 18 hardware slots is always
free after the scan. -/
theorem dpbScan_free_slot (find : Nat → Option Nat) (pos : Nat → Nat)
    (timestamp : Nat) (dpb : List DpbEntry) (hlen : dpb.length ≤ 16) :
    ∃ i, i < 18 ∧
      ((dpbScan find pos timestamp dpb).used_dpbs).testBit i = false := by
  by_contra hcon
  push_neg at hcon
  have hall : ∀ i, i < 18 → isSlotOf find pos dpb i = true := by
    intro i hi
    have h1 := hcon i hi
    have h2 := dpbScan_used_testBit find pos timestamp dpb ⟨0, Option.none, []⟩ i
    have h3 : ((dpbScan find pos timestamp dpb).used_dpbs).testBit i
        = isSlotOf find pos dpb i := by
      rw [show dpbScan find pos timestamp dpb
          = dpb.foldl (dpbScanStep find pos timestamp) ⟨0, Option.none, []⟩ from rfl,
        h2]
      simp [Nat.zero_testBit]
    rw [h3] at h1
    cases hc : isSlotOf find pos dpb i
    · exact absurd hc h1
    · rfl
  have hsub : Finset.range 18 ⊆ (dpb.filterMap (fun e =>
      if e.valid = true then (find e.reference_ts).map pos
      else Option.none)).toFinset := by
    intro i hi
    rw [List.mem_toFinset]
    exact isSlotOf_mem find pos dpb i (hall i (Finset.mem_range.mp hi))
  have hcard := Finset.card_le_card hsub
  rw [Finset.card_range] at hcard
  have h4 := List.toFinset_card_le (dpb.filterMap (fun e =>
    if e.valid = true then (find e.reference_ts).map pos else Option.none))
  have h5 := List.length_filterMap_le (fun e =>
    if e.valid = true then (find e.reference_ts).map pos else Option.none) dpb
  omega

/-- Claim C4: for a decode Job whose valid DPB entries all resolve to
known picture buffers (`hres`), with distinct buffers on distinct slots
(`hpos`, the table invariant), distinct timestamps on distinct buffers
(`hfind`, the vb2 timestamp lookup) and the output timestamp resolving
only to the output buffer (`hout`): the slot written for the output
picture is the slot of a DPB entry sharing the output timestamp when one
exists, and otherwise the lowest of the 18 indices not occupied by any
valid entry's slot; the output slot is distinct from every slot
programmed into the per-slot frame-info table; and every reference
buffer's stored slot survives the call unchanged (slot stability per
timestamp), including the output buffer's own slot in the re-output
case. -/
theorem write_frame_list_spec (find : Nat → Option Nat) (pos : Nat → Nat)
    (timestamp : Nat) (dpb : List DpbEntry) (outBuf : Nat)
    (hres : ∀ e ∈ dpb, e.valid = true → (find e.reference_ts).isSome = true)
    (hlen : dpb.length ≤ 16)
    (hfind : ∀ t1 t2 b, find t1 = Option.some b → find t2 = Option.some b →
      t1 = t2)
    (hpos : ∀ b1 b2, pos b1 = pos b2 → b1 = b2)
    (hout : ∀ t, find t = Option.some outBuf → t = timestamp) :
    (∀ b, find timestamp = Option.some b →
      (∃ e ∈ dpb, e.valid = true ∧ e.reference_ts = timestamp) →
      (cedrus_write_frame_list find pos timestamp dpb).1 = pos b) ∧
    ((¬ ∃ e ∈ dpb, e.valid = true ∧ e.reference_ts = timestamp) →
      (cedrus_write_frame_list find pos timestamp dpb).1 < 18 ∧
      isSlotOf find pos dpb (cedrus_write_frame_list find pos timestamp dpb).1
        = false ∧
      ∀ m, m < (cedrus_write_frame_list find pos timestamp dpb).1 →
        isSlotOf find pos dpb m = true) ∧
    (∀ p ∈ (cedrus_write_frame_list find pos timestamp dpb).2,
      p ≠ (cedrus_write_frame_list find pos timestamp dpb).1) ∧
    (∀ t b, t ≠ timestamp → find t = Option.some b →
      positionsAfter find pos timestamp dpb outBuf b = pos b) ∧
    (find timestamp = Option.some outBuf →
      (∃ e ∈ dpb, e.valid = true ∧ e.reference_ts = timestamp) →
      positionsAfter find pos timestamp dpb outBuf outBuf = pos outBuf) := by
  have ha : ∀ b, find timestamp = Option.some b →
      (∃ e ∈ dpb, e.valid = true ∧ e.reference_ts = timestamp) →
      (cedrus_write_frame_list find pos timestamp dpb).1 = pos b := by
    intro b hf hm
    have hacc : (dpbScan find pos timestamp dpb).output = Option.some (pos b) := by
      unfold dpbScan
      exact dpbScan_output_some find pos timestamp dpb ⟨0, Option.none, []⟩ b hf
        (Or.inr hm)
    show (match (dpbScan find pos timestamp dpb).output with
      | Option.some p => p
      | Option.none => find_first_zero_bit
          (dpbScan find pos timestamp dpb).used_dpbs
          CEDRUS_DEC_H264_FRAME_NUM) = pos b
    rw [hacc]
  have htb : ∀ q, ((dpbScan find pos timestamp dpb).used_dpbs).testBit q
      = isSlotOf find pos dpb q := by
    intro q
    have h2 := dpbScan_used_testBit find pos timestamp dpb ⟨0, Option.none, []⟩ q
    rw [show dpbScan find pos timestamp dpb
        = dpb.foldl (dpbScanStep find pos timestamp) ⟨0, Option.none, []⟩ from rfl,
      h2]
    simp [Nat.zero_testBit]
  have hbfree : (¬ ∃ e ∈ dpb, e.valid = true ∧ e.reference_ts = timestamp) →
      (cedrus_write_frame_list find pos timestamp dpb).1 < 18 ∧
      ((dpbScan find pos timestamp dpb).used_dpbs).testBit
        (cedrus_write_frame_list find pos timestamp dpb).1 = false ∧
      ∀ m, m < (cedrus_write_frame_list find pos timestamp dpb).1 →
        ((dpbScan find pos timestamp dpb).used_dpbs).testBit m = true := by
    intro hnm
    have hforall : ∀ e ∈ dpb, e.valid = true → e.reference_ts ≠ timestamp := by
      intro e he hv hc
      exact hnm ⟨e, he, hv, hc⟩
    have hacc : (dpbScan find pos timestamp dpb).output = Option.none := by
      unfold dpbScan
      exact dpbScan_output_skip find pos timestamp dpb ⟨0, Option.none, []⟩ hforall
    have hposition : (cedrus_write_frame_list find pos timestamp dpb).1
        = ffzFrom (dpbScan find pos timestamp dpb).used_dpbs 0 18 := by
      show (match (dpbScan find pos timestamp dpb).output with
        | Option.some p => p
        | Option.none => find_first_zero_bit
            (dpbScan find pos timestamp dpb).used_dpbs
            CEDRUS_DEC_H264_FRAME_NUM)
        = ffzFrom (dpbScan find pos timestamp dpb).used_dpbs 0 18
      rw [hacc]
      rfl
    rcases dpbScan_free_slot find pos timestamp dpb hlen with ⟨i, hi, hfree⟩
    have hlt : ffzFrom (dpbScan find pos timestamp dpb).used_dpbs 0 18 < 18 := by
      by_contra hge
      push_neg at hge
      have := ffzFrom_before (dpbScan find pos timestamp dpb).used_dpbs 18 0 i
        (Nat.zero_le i) (by omega)
      rw [this] at hfree
      exact absurd hfree (by simp)
    refine ⟨by rw [hposition]; exact hlt, ?_, ?_⟩
    · rw [hposition]
      exact ffzFrom_found (dpbScan find pos timestamp dpb).used_dpbs 18 0
        (by omega)
    · intro m hm
      rw [hposition] at hm
      exact ffzFrom_before (dpbScan find pos timestamp dpb).used_dpbs 18 0 m
        (Nat.zero_le m) hm
  refine ⟨ha, ?_, ?_, ?_, ?_⟩
  · intro hnm
    rcases hbfree hnm with ⟨h18, hfree, hmin⟩
    refine ⟨h18, ?_, ?_⟩
    · rw [← htb]
      exact hfree
    · intro m hm
      rw [← htb]
      exact hmin m hm
  · intro p hp
    have hp2 : p ∈ (dpbScan find pos timestamp dpb).programmed := hp
    have hchar := dpbScan_programmed find pos timestamp dpb ⟨0, Option.none, []⟩ p hp2
    rcases hchar with h0 | ⟨e2, he2, hv2, ha2, hts2, b2, hfind2, hpb2⟩
    · exact absurd h0 (List.not_mem_nil p)
    · by_cases hm : ∃ e ∈ dpb, e.valid = true ∧ e.reference_ts = timestamp
      · rcases hm with ⟨e, he, hv, hts⟩
        have hsome := hres e he hv
        rw [hts] at hsome
        rcases Option.isSome_iff_exists.mp hsome with ⟨b, hb⟩
        have hpb := ha b hb ⟨e, he, hv, hts⟩
        intro hc
        rw [hc, hpb] at hpb2
        have hbb : b2 = b := hpos b2 b hpb2.symm
        rw [hbb] at hfind2
        exact hts2 (hfind e2.reference_ts timestamp b hfind2 hb)
      · rcases hbfree hm with ⟨h18, hfree, hmin⟩
        have hslotp : isSlotOf find pos dpb p = true := by
          apply List.any_eq_true.mpr
          refine ⟨e2, he2, ?_⟩
          rw [Bool.and_eq_true_iff]
          refine ⟨hv2, ?_⟩
          rw [hfind2]
          exact decide_eq_true hpb2.symm
        intro hc
        rw [hc, ← htb] at hslotp
        rw [hfree] at hslotp
        exact absurd hslotp (by simp)
  · intro t b hne hf
    have hbneq : b ≠ outBuf := by
      intro hc
      rw [hc] at hf
      exact hne (hout t hf)
    unfold positionsAfter
    rw [if_neg hbneq]
  · intro hf hm
    unfold positionsAfter
    rw [if_pos rfl]
    exact ha outBuf hf hm

/-- Witness inputs for C4: every timestamp resolves to the buffer of the
same number, each buffer's stored slot is its own number, a single
valid+active reference entry with timestamp 5, output timestamp 0. -/
def findW : Nat → Option Nat := fun t => Option.some t

def posW : Nat → Nat := fun b => b

def dpbW : List DpbEntry := [⟨true, true, 5⟩]

/-- Witness for C4: applying the theorem's slot-stability part to the
reference entry with timestamp 5 shows its stored slot survives the
call. -/
theorem write_frame_list_spec_witness :
    positionsAfter findW posW 0 dpbW 0 5 = posW 5 :=
  (write_frame_list_spec findW posW 0 dpbW 0
      (fun e he hv => rfl)
      (by decide)
      (fun t1 t2 b h1 h2 => by
        simp [findW] at h1 h2
        rw [h1, h2])
      (fun b1 b2 h => h)
      (fun t h => by
        simp [findW] at h
        exact h)).2.2.2.1 5 5 (by decide) rfl

end Cedrus
